import Mathlib

/-!
Shallow embedding of the ST7735 TFT display driver (`source/st7735.h`).

The driver is a C++ template `ST7735Driver<width, height, Transport>` holding a
byte framebuffer `uint8_t buffer_[width * height * 2]` and three theme colors.
Coordinates are `uint_fast8_t` (8-bit, arithmetic mod 256), colors are
`uint16_t` RGB565 values.  We model:
  * the driver state as a structure (`Driver`) whose `width`/`height` fields
    stand for the template parameters and whose `buffer_` is a `List Nat`
    of bytes;
  * the drawing operations (`DrawPixelColor`, `FillColor`, `DrawHLineColor`,
    `DrawVLineColor`, `DrawRectColor`, `DrawLineColor`) as pure functions,
    with machine arithmetic made explicit (`% 256` for `uint_fast8_t`
    parameter passing and increments, `% 65536` for `uint16_t`);
  * the `for`/`while` loops as fuel-indexed recursions returning `Option`
    (`none` = the C loop has not exited within the fuel; the fuels chosen are
    large enough that `none` can only arise from a genuinely diverging C loop);
  * the transport (`SendCommand`/`SendData`/delays) as an emitted event trace
    (`Event`), so `Update` and `Init` produce the exact wire protocol.

`DrawLineColor` additionally returns the list of plotted points (the sequence
of `(x, y)` arguments passed to `DrawPixelColor`), which is the "pixel set"
the spec's line-drawing properties talk about.
-/

namespace ST7735

/-- Driver state: template parameters `width`/`height`, the framebuffer bytes
and the three theme colors of `ST7735Driver`. -/
structure Driver where
  width : Nat
  height : Nat
  buffer_ : List Nat
  foreground_color_ : Nat
  background_color_ : Nat
  accent_color_ : Nat
  deriving DecidableEq, Repr

/-- `COLOR_BLACK` constant from the source. -/
def COLOR_BLACK : Nat := 0x0000

/-- `COLOR_WHITE` constant from the source. -/
def COLOR_WHITE : Nat := 0xFFFF

/-- `COLOR_CYAN` constant from the source. -/
def COLOR_CYAN : Nat := 0x07FF

/-- `RGB565(r, g, b) = ((r & 0xF8) << 8) | ((g & 0xFC) << 3) | (b >> 3)`.
The `% 256` model the `uint8_t` parameters, the final `% 65536` the
`uint16_t` return type. -/
def RGB565 (r g b : Nat) : Nat :=
  ((((r % 256) &&& 0xF8) <<< 8) ||| (((g % 256) &&& 0xFC) <<< 3) ||| ((b % 256) >>> 3)) % 65536

/-- The quantization formula exactly as the spec writes it
(`R5G6B5(r,g,b) = ((r&0xF8)<<8) | ((g&0xFC)<<3) | (b>>3)` on 8-bit inputs);
kept separate from `RGB565` so the two can be compared. -/
def R5G6B5_spec (r g b : Nat) : Nat :=
  ((r &&& 0xF8) <<< 8) ||| ((g &&& 0xFC) <<< 3) ||| (b >>> 3)

/-- `DrawPixelColor`: bounds-checked write of the two bytes of `color`
(high byte first) at offset `(y * width + x) * 2`. -/
def DrawPixelColor (d : Driver) (x y color : Nat) : Driver :=
  let x := x % 256
  let y := y % 256
  if d.width ≤ x ∨ d.height ≤ y then d
  else
    let idx := (y * d.width + x) * 2
    { d with buffer_ := (d.buffer_.set idx (color / 256 % 256)).set (idx + 1) (color % 256) }

/-- The `for(size_t i = 0; i < sizeof(buffer_); i += 2)` loop of `FillColor`:
`n` counts the remaining iterations (pairs of bytes), `i` is the loop index. -/
def fillLoop (hi lo : Nat) : Nat → Nat → List Nat → List Nat
  | 0, _, b => b
  | n + 1, i, b => fillLoop hi lo n (i + 2) ((b.set i hi).set (i + 1) lo)

/-- `FillColor`: writes `color`'s two bytes over the whole buffer;
`sizeof(buffer_) = width * height * 2`, so the loop runs `width * height`
times. -/
def FillColor (d : Driver) (color : Nat) : Driver :=
  let hi := color / 256 % 256
  let lo := color % 256
  { d with buffer_ := fillLoop hi lo (d.width * d.height) 0 d.buffer_ }

/-- `Fill`: the legacy boolean entry point, resolved through the theme. -/
def Fill (d : Driver) (on_ : Bool) : Driver :=
  FillColor d (if on_ then d.foreground_color_ else d.background_color_)

/-- The `for(uint_fast8_t i = x; i < x + w && i < width; i++)` loop of
`DrawHLineColor`.  `i` increments mod 256 (`uint_fast8_t`); the fuel makes the
recursion total, `none` meaning the C loop did not exit within the fuel. -/
def hlineLoop (xw y color : Nat) : Nat → Driver → Nat → Option Driver
  | 0, _, _ => none
  | fuel + 1, d, i =>
    if i < xw ∧ i < d.width then
      hlineLoop xw y color fuel (DrawPixelColor d i y color) ((i + 1) % 256)
    else
      some d

/-- `DrawHLineColor`.  Fuel 257 exceeds the 256 possible values of the
`uint_fast8_t` loop index, so `none` occurs exactly when the C loop diverges. -/
def DrawHLineColor (d : Driver) (x y w color : Nat) : Option Driver :=
  let x := x % 256
  let y := y % 256
  let w := w % 256
  hlineLoop (x + w) y color 257 d x

/-- The `for(uint_fast8_t j = y; j < y + h && j < height; j++)` loop of
`DrawVLineColor`. -/
def vlineLoop (yh x color : Nat) : Nat → Driver → Nat → Option Driver
  | 0, _, _ => none
  | fuel + 1, d, j =>
    if j < yh ∧ j < d.height then
      vlineLoop yh x color fuel (DrawPixelColor d x j color) ((j + 1) % 256)
    else
      some d

/-- `DrawVLineColor`. -/
def DrawVLineColor (d : Driver) (x y h color : Nat) : Option Driver :=
  let x := x % 256
  let y := y % 256
  let h := h % 256
  vlineLoop (y + h) x color 257 d y

/-- `DrawRectColor`: four line draws; the width/height arguments
`x2 - x1 + 1` / `y2 - y1 + 1` are computed in `int` and truncated to the
`uint_fast8_t` parameter, i.e. taken mod 256 (`(x2 + 257 - x1) % 256` equals
`(x2 - x1 + 1) mod 256` for `x1, x2 < 256`). -/
def DrawRectColor (d : Driver) (x1 y1 x2 y2 color : Nat) : Option Driver :=
  let x1 := x1 % 256
  let y1 := y1 % 256
  let x2 := x2 % 256
  let y2 := y2 % 256
  let w := (x2 + 257 - x1) % 256
  let h := (y2 + 257 - y1) % 256
  (DrawHLineColor d x1 y1 w color).bind fun d =>
    (DrawHLineColor d x1 y2 w color).bind fun d =>
      (DrawVLineColor d x1 y1 h color).bind fun d =>
        DrawVLineColor d x2 y1 h color

/-- The `while(true)` Bresenham loop of `DrawLineColor`: plot, break when the
current point reaches `(x2, y2)`, otherwise update the error term and step
`x`/`y` by `sx`/`sy` (mod 256, as `uint_fast8_t`).  Returns the final driver
and the list of plotted points; `none` = fuel exhausted before the break. -/
def bresLoop (color : Nat) (dx dy sx sy : Int) (x2 y2 : Nat) :
    Nat → Driver → Nat → Nat → Int → Option (Driver × List (Nat × Nat))
  | 0, _, _, _, _ => none
  | fuel + 1, d, x, y, err =>
    let d := DrawPixelColor d x y color
    if x = x2 ∧ y = y2 then
      some (d, [(x, y)])
    else
      let e2 := 2 * err
      let err1 := if e2 > -dy then err - dy else err
      let x1 := if e2 > -dy then (if sx = 1 then (x + 1) % 256 else (x + 255) % 256) else x
      let err2 := if e2 < dx then err1 + dx else err1
      let y1 := if e2 < dx then (if sy = 1 then (y + 1) % 256 else (y + 255) % 256) else y
      match bresLoop color dx dy sx sy x2 y2 fuel d x1 y1 err2 with
      | none => none
      | some (df, pts) => some (df, (x, y) :: pts)

/-- `DrawLineColor`: Bresenham setup (`dx = |x2-x1|`, `dy = |y2-y1|`,
`sx, sy ∈ {1, -1}`, `err = dx - dy`) followed by the plot loop.  The fuel
`dx + dy + 1` is proved sufficient (claim C10). -/
def DrawLineColor (d : Driver) (x1 y1 x2 y2 color : Nat) :
    Option (Driver × List (Nat × Nat)) :=
  let x1 := x1 % 256
  let y1 := y1 % 256
  let x2 := x2 % 256
  let y2 := y2 % 256
  let dx : Int := |(x2 : Int) - (x1 : Int)|
  let dy : Int := |(y2 : Int) - (y1 : Int)|
  let sx : Int := if x1 < x2 then 1 else -1
  let sy : Int := if y1 < y2 then 1 else -1
  let err : Int := dx - dy
  bresLoop color dx dy sx sy x2 y2 (dx.toNat + dy.toNat + 1) d x1 y1 err

/-- One event on the wire/transport: a command byte, a data burst, a delay in
milliseconds, or the transport reset/setup performed by `Transport::Init`. -/
inductive Event where
  | cmd : Nat → Event
  | data : List Nat → Event
  | delay : Nat → Event
  | tinit : Event
  deriving DecidableEq, Repr

/-- `Update`: CASET (0x2A) with `{0, 0, 0, width-1}`, RASET (0x2B) with
`{0, 0, 0, height-1}`, RAMWR (0x2C) followed by the whole framebuffer.
`(uint8_t)(width - 1)` is `(width + 255) % 256` (also correct for the
`size_t` wrap at `width = 0`). -/
def Update (d : Driver) : List Event :=
  [Event.cmd 0x2A, Event.data [0x00, 0x00, 0x00, (d.width + 255) % 256],
   Event.cmd 0x2B, Event.data [0x00, 0x00, 0x00, (d.height + 255) % 256],
   Event.cmd 0x2C, Event.data d.buffer_]

/-- `Init`: transport init, theme defaults, the fixed command script,
`Fill(false)` (background color) and one `Update`.  Returns the final driver
state and the emitted trace. -/
def Init (d : Driver) : Driver × List Event :=
  let d := { d with foreground_color_ := COLOR_WHITE,
                    background_color_ := COLOR_BLACK,
                    accent_color_ := COLOR_CYAN }
  let script : List Event :=
    [Event.tinit,
     Event.cmd 0x01, Event.delay 150,
     Event.cmd 0x11, Event.delay 120,
     Event.cmd 0xB1, Event.data [0x01, 0x2C, 0x2D],
     Event.cmd 0xB2, Event.data [0x01, 0x2C, 0x2D],
     Event.cmd 0xB3, Event.data [0x01, 0x2C, 0x2D, 0x01, 0x2C, 0x2D],
     Event.cmd 0xB4, Event.data [0x07],
     Event.cmd 0xC0, Event.data [0xA2, 0x02, 0x84],
     Event.cmd 0xC1, Event.data [0xC5],
     Event.cmd 0xC2, Event.data [0x0A, 0x00],
     Event.cmd 0xC3, Event.data [0x8A, 0x2A],
     Event.cmd 0xC4, Event.data [0x8A, 0xEE],
     Event.cmd 0xC5, Event.data [0x0E],
     Event.cmd 0x20,
     Event.cmd 0x36, Event.data [0xC8],
     Event.cmd 0x3A, Event.data [0x05],
     Event.delay 10,
     Event.cmd 0xE0, Event.data [0x02, 0x1c, 0x07, 0x12, 0x37, 0x32, 0x29, 0x2d,
                                 0x29, 0x25, 0x2B, 0x39, 0x00, 0x01, 0x03, 0x10],
     Event.cmd 0xE1, Event.data [0x03, 0x1d, 0x07, 0x06, 0x2E, 0x2C, 0x29, 0x2D,
                                 0x2E, 0x2E, 0x37, 0x3F, 0x00, 0x00, 0x02, 0x10],
     Event.cmd 0x13, Event.delay 10,
     Event.cmd 0x29, Event.delay 100]
  let d := Fill d false
  (d, script ++ Update d)

/-- Read back the 16-bit color at `(x, y)`: the two framebuffer bytes at
offset `(y * width + x) * 2`, high byte first. -/
def readPixel (d : Driver) (x y : Nat) : Option Nat :=
  match d.buffer_[(y * d.width + x) * 2]?, d.buffer_[(y * d.width + x) * 2 + 1]? with
  | some hi, some lo => some (hi * 256 + lo)
  | _, _ => none

/-- The plotted-point list of a `DrawLineColor` result (empty if the loop did
not finish). -/
def ptsOf : Option (Driver × List (Nat × Nat)) → List (Nat × Nat)
  | none => []
  | some r => r.2

/-- A concrete 3×2 driver instance with a zeroed framebuffer, used to
instantiate witnesses. -/
def testDriver : Driver :=
  { width := 3, height := 2, buffer_ := List.replicate 12 0,
    foreground_color_ := COLOR_WHITE, background_color_ := COLOR_BLACK,
    accent_color_ := COLOR_CYAN }

/-- A concrete 8×8 driver instance with a zeroed framebuffer. -/
def testDriver8 : Driver :=
  { width := 8, height := 8, buffer_ := List.replicate 128 0,
    foreground_color_ := COLOR_WHITE, background_color_ := COLOR_BLACK,
    accent_color_ := COLOR_CYAN }

/-! ### Helper lemmas about `DrawPixelColor` -/

lemma DrawPixelColor_width (d : Driver) (x y c : Nat) :
    (DrawPixelColor d x y c).width = d.width := by
  simp only [DrawPixelColor]
  split <;> rfl

lemma DrawPixelColor_height (d : Driver) (x y c : Nat) :
    (DrawPixelColor d x y c).height = d.height := by
  simp only [DrawPixelColor]
  split <;> rfl

lemma DrawPixelColor_length (d : Driver) (x y c : Nat) :
    (DrawPixelColor d x y c).buffer_.length = d.buffer_.length := by
  simp only [DrawPixelColor]
  split
  · rfl
  · simp [List.length_set]

lemma DrawPixelColor_getElem?_other (d : Driver) (x y c i : Nat)
    (h1 : i ≠ ((y % 256) * d.width + x % 256) * 2)
    (h2 : i ≠ ((y % 256) * d.width + x % 256) * 2 + 1) :
    (DrawPixelColor d x y c).buffer_[i]? = d.buffer_[i]? := by
  simp only [DrawPixelColor]
  split
  · rfl
  · rw [List.getElem?_set_ne (by omega), List.getElem?_set_ne (by omega)]

lemma offset_lt (w h x y : Nat) (hx : x < w) (hy : y < h) :
    (y * w + x) * 2 + 1 < w * h * 2 := by
  have h1 : y * w + x < y * w + w := by omega
  have h2 : y * w + w = (y + 1) * w := by ring
  have h3 : (y + 1) * w ≤ h * w := Nat.mul_le_mul_right w (by omega)
  have h4 : h * w = w * h := Nat.mul_comm h w
  omega

lemma DrawPixelColor_getElem?_hi (d : Driver) (x y c : Nat)
    (hx : x < d.width) (hy : y < d.height) (hx2 : x < 256) (hy2 : y < 256)
    (hlen : d.buffer_.length = d.width * d.height * 2) :
    (DrawPixelColor d x y c).buffer_[(y * d.width + x) * 2]? = some (c / 256 % 256) := by
  have hoff := offset_lt d.width d.height x y hx hy
  simp only [DrawPixelColor, Nat.mod_eq_of_lt hx2, Nat.mod_eq_of_lt hy2]
  split
  · omega
  · rw [List.getElem?_set_ne (by omega),
      List.getElem?_set_eq_of_lt _ (by rw [hlen]; omega)]

lemma DrawPixelColor_getElem?_lo (d : Driver) (x y c : Nat)
    (hx : x < d.width) (hy : y < d.height) (hx2 : x < 256) (hy2 : y < 256)
    (hlen : d.buffer_.length = d.width * d.height * 2) :
    (DrawPixelColor d x y c).buffer_[(y * d.width + x) * 2 + 1]? = some (c % 256) := by
  have hoff := offset_lt d.width d.height x y hx hy
  simp only [DrawPixelColor, Nat.mod_eq_of_lt hx2, Nat.mod_eq_of_lt hy2]
  split
  · omega
  · rw [List.getElem?_set_eq_of_lt _ (by rw [List.length_set, hlen]; omega)]

lemma DrawPixelColor_oob (d : Driver) (x y c : Nat)
    (hx2 : x < 256) (hy2 : y < 256) (h : d.width ≤ x ∨ d.height ≤ y) :
    DrawPixelColor d x y c = d := by
  simp only [DrawPixelColor, Nat.mod_eq_of_lt hx2, Nat.mod_eq_of_lt hy2]
  split
  · rfl
  · omega

/-! ### C4: the RGB888 → RGB565 conversion -/

set_option maxRecDepth 4096 in
lemma land_F8 : ∀ r : Fin 256, (r.val &&& 0xF8) = 8 * (r.val / 8) := by decide

set_option maxRecDepth 4096 in
lemma land_FC : ∀ g : Fin 256, (g.val &&& 0xFC) = 4 * (g.val / 4) := by decide

set_option maxRecDepth 4096 in
lemma shr3 : ∀ b : Fin 256, (b.val >>> 3) = b.val / 8 := by decide

lemma pack565 (r g b : Nat) (hr : r < 256) (hg : g < 256) (hb : b < 256) :
    ((r &&& 0xF8) <<< 8) ||| ((g &&& 0xFC) <<< 3) ||| (b >>> 3)
      = 2048 * (r / 8) + 32 * (g / 4) + b / 8 := by
  have h1 := land_F8 ⟨r, hr⟩
  have h2 := land_FC ⟨g, hg⟩
  have h3 := shr3 ⟨b, hb⟩
  simp only at h1 h2 h3
  rw [h1, h2, h3, Nat.shiftLeft_eq, Nat.shiftLeft_eq, Nat.lor_assoc]
  have e1 : 8 * (r / 8) * 2 ^ 8 = 2 ^ 11 * (r / 8) := by ring
  have e2 : 4 * (g / 4) * 2 ^ 3 = 2 ^ 5 * (g / 4) := by ring
  rw [e1, e2]
  rw [← Nat.mul_add_lt_is_or (show b / 8 < 2 ^ 5 by omega)]
  rw [← Nat.mul_add_lt_is_or (show 2 ^ 5 * (g / 4) + b / 8 < 2 ^ 11 by omega)]
  ring

/-- Claim C4: for every 8-bit triple `(r, g, b)` the RGB888→RGB565 conversion
`RGB565` equals the spec's bit-packing formula
`((r&0xF8)<<8) | ((g&0xFC)<<3) | (b>>3)` bit for bit (it is a function, hence
deterministic), and both equal the manual bit extraction
`2048*(r/8) + 32*(g/4) + b/8`, i.e. red in bits 11–15, green in bits 5–10,
blue in bits 0–4. -/
theorem RGB565_bitexact (r g b : Nat) (hr : r < 256) (hg : g < 256) (hb : b < 256) :
    RGB565 r g b = R5G6B5_spec r g b ∧
    RGB565 r g b = 2048 * (r / 8) + 32 * (g / 4) + b / 8 := by
  have key := pack565 r g b hr hg hb
  have hlt : ((r &&& 0xF8) <<< 8) ||| ((g &&& 0xFC) <<< 3) ||| (b >>> 3) < 65536 := by
    rw [key]; omega
  unfold RGB565 R5G6B5_spec
  rw [Nat.mod_eq_of_lt hr, Nat.mod_eq_of_lt hg, Nat.mod_eq_of_lt hb, Nat.mod_eq_of_lt hlt]
  exact ⟨rfl, key⟩

/-- Witness for C4 at `(r, g, b) = (255, 128, 37)`. -/
theorem RGB565_bitexact_witness :
    (255 < 256 ∧ 128 < 256 ∧ 37 < 256) ∧
    (RGB565 255 128 37 = R5G6B5_spec 255 128 37 ∧
     RGB565 255 128 37 = 2048 * (255 / 8) + 32 * (128 / 4) + 37 / 8) :=
  ⟨by decide, RGB565_bitexact 255 128 37 (by decide) (by decide) (by decide)⟩

/-! ### C3: `setPixel` (`DrawPixelColor`) -/

/-- Claim C3: for in-bounds `(x, y)` (and any `uint16_t` color),
`DrawPixelColor` stores the color at byte offset `(y*width+x)*2`, high byte
first (so reading the two bytes back reassembles `color % 65536`, i.e. the
16-bit color) and changes no other byte; for `x ≥ width` or `y ≥ height` it
leaves the driver (hence the framebuffer) unchanged.  `x, y < 256` reflects
the `uint_fast8_t` coordinate type, `hlen` the `buffer_[width*height*2]`
array size. -/
theorem setPixel_spec (d : Driver) (x y color : Nat)
    (hx256 : x < 256) (hy256 : y < 256)
    (hlen : d.buffer_.length = d.width * d.height * 2) :
    (x < d.width ∧ y < d.height →
      (DrawPixelColor d x y color).buffer_[(y * d.width + x) * 2]?
          = some (color / 256 % 256) ∧
      (DrawPixelColor d x y color).buffer_[(y * d.width + x) * 2 + 1]?
          = some (color % 256) ∧
      256 * (color / 256 % 256) + color % 256 = color % 65536 ∧
      ∀ i, i ≠ (y * d.width + x) * 2 → i ≠ (y * d.width + x) * 2 + 1 →
        (DrawPixelColor d x y color).buffer_[i]? = d.buffer_[i]?) ∧
    (d.width ≤ x ∨ d.height ≤ y → DrawPixelColor d x y color = d) := by
  constructor
  · rintro ⟨hx, hy⟩
    refine ⟨DrawPixelColor_getElem?_hi d x y color hx hy hx256 hy256 hlen,
      DrawPixelColor_getElem?_lo d x y color hx hy hx256 hy256 hlen, by omega, ?_⟩
    intro i h1 h2
    exact DrawPixelColor_getElem?_other d x y color i
      (by rw [Nat.mod_eq_of_lt hx256, Nat.mod_eq_of_lt hy256]; exact h1)
      (by rw [Nat.mod_eq_of_lt hx256, Nat.mod_eq_of_lt hy256]; exact h2)
  · exact DrawPixelColor_oob d x y color hx256 hy256

/-- Witness for C3 on the 3×2 test driver: an in-bounds write at `(2, 1)`
with color `0xABCD` and an out-of-bounds write at `(7, 0)`. -/
theorem setPixel_spec_witness :
    (2 < 256 ∧ 1 < 256 ∧ (testDriver.buffer_.length = testDriver.width * testDriver.height * 2)) ∧
    ((DrawPixelColor testDriver 2 1 0xABCD).buffer_[(1 * testDriver.width + 2) * 2]?
        = some (0xABCD / 256 % 256)) ∧
    (DrawPixelColor testDriver 7 0 0xABCD = testDriver) :=
  ⟨by decide,
   ((setPixel_spec testDriver 2 1 0xABCD (by decide) (by decide) (by decide)).1
      (by decide)).1,
   (setPixel_spec testDriver 7 0 0xABCD (by decide) (by decide) (by decide)).2
      (by decide)⟩

/-! ### C9: the degenerate line -/

/-- Claim C9: `DrawLineColor(x, y, x, y, c)` plots exactly one pixel, at
`(x, y)` (the result is `DrawPixelColor d x y c` and the plotted-point list is
`[(x, y)]`), and every framebuffer byte outside that pixel's two offsets is
unchanged. -/
theorem drawLine_degenerate (d : Driver) (x y color : Nat)
    (hx : x < 256) (hy : y < 256) :
    DrawLineColor d x y x y color = some (DrawPixelColor d x y color, [(x, y)]) ∧
    ∀ i, i ≠ (y * d.width + x) * 2 → i ≠ (y * d.width + x) * 2 + 1 →
      (DrawPixelColor d x y color).buffer_[i]? = d.buffer_[i]? := by
  constructor
  · unfold DrawLineColor
    simp [Nat.mod_eq_of_lt hx, Nat.mod_eq_of_lt hy, bresLoop]
  · intro i h1 h2
    exact DrawPixelColor_getElem?_other d x y color i
      (by rw [Nat.mod_eq_of_lt hx, Nat.mod_eq_of_lt hy]; exact h1)
      (by rw [Nat.mod_eq_of_lt hx, Nat.mod_eq_of_lt hy]; exact h2)

/-- Witness for C9 at `(x, y) = (5, 5)` on the 8×8 test driver. -/
theorem drawLine_degenerate_witness :
    (5 < 256) ∧
    DrawLineColor testDriver8 5 5 5 5 3 = some (DrawPixelColor testDriver8 5 5 3, [(5, 5)]) :=
  ⟨by decide, (drawLine_degenerate testDriver8 5 5 3 (by decide) (by decide)).1⟩

/-! ### C10, C1, C2: the Bresenham line loop -/

lemma bresLoop_total (color : Nat) (dx dy sx sy : Int) (x2 y2 : Nat)
    (hsx : sx = 1 ∨ sx = -1) (hsy : sy = 1 ∨ sy = -1)
    (hdx : 0 ≤ dx) (hdy : 0 ≤ dy)
    (hx2 : x2 < 256) (hy2 : y2 < 256)
    (hx1l : 0 ≤ (x2 : Int) - sx * dx) (hx1u : (x2 : Int) - sx * dx < 256)
    (hy1l : 0 ≤ (y2 : Int) - sy * dy) (hy1u : (y2 : Int) - sy * dy < 256) :
    ∀ (fuel : Nat) (u v : Nat) (d : Driver) (x y : Nat) (err : Int),
      (u : Int) ≤ dx → (v : Int) ≤ dy →
      (x : Int) = x2 - sx * u → (y : Int) = y2 - sy * v →
      err = (dy - v + 1) * dx - (dx - u + 1) * dy →
      u + v < fuel →
      ∃ df pts, bresLoop color dx dy sx sy x2 y2 fuel d x y err = some (df, pts) ∧
        (x2, y2) ∈ pts := by
  intro fuel
  induction fuel with
  | zero => intro u v d x y err _ _ _ _ _ hfuel; omega
  | succ n ih =>
    intro u v d x y err hu hv hx hy herr hfuel
    by_cases hend : x = x2 ∧ y = y2
    · exact ⟨_, _, by rw [bresLoop, if_pos hend], by rw [hend.1, hend.2]; exact List.mem_singleton.mpr rfl⟩
    · -- not at the endpoint yet: at least one of u, v is nonzero
      have hne : ¬(u = 0 ∧ v = 0) := by
        rintro ⟨rfl, rfl⟩
        rcases hsx with rfl | rfl <;> rcases hsy with rfl | rfl <;>
          exact hend ⟨by omega, by omega⟩
      -- overshoot is impossible: when u = 0 the x-step test fails, etc.
      have hO1 : u = 0 → v ≠ 0 → ¬(2 * err > -dy) := by
        intro hu0 hv0 hgt
        subst hu0
        have hv1 : (1 : Int) ≤ (v : Int) := by
          have : 1 ≤ v := Nat.one_le_iff_ne_zero.mpr hv0
          exact_mod_cast this
        have hprod : 0 ≤ dx * ((v : Int) - 1) := mul_nonneg hdx (by linarith)
        rw [herr] at hgt
        push_cast at hgt
        nlinarith [hgt, hprod, hv, hdy]
      have hO2 : v = 0 → u ≠ 0 → ¬(2 * err < dx) := by
        intro hv0 hu0 hlt
        subst hv0
        have hu1 : (1 : Int) ≤ (u : Int) := by
          have : 1 ≤ u := Nat.one_le_iff_ne_zero.mpr hu0
          exact_mod_cast this
        have hprod : 0 ≤ dy * ((u : Int) - 1) := mul_nonneg hdy (by linarith)
        rw [herr] at hlt
        push_cast at hlt
        nlinarith [hlt, hprod, hu, hdx]
      by_cases c1 : 2 * err > -dy <;> by_cases c2 : 2 * err < dx
      · -- both axes step
        have hu0 : u ≠ 0 := by
          intro h0
          by_cases h0v : v = 0
          · exact hne ⟨h0, h0v⟩
          · exact hO1 h0 h0v c1
        have hv0 : v ≠ 0 := by
          intro h0
          exact hO2 h0 hu0 c2
        rcases hsx with rfl | rfl <;> rcases hsy with rfl | rfl
        · -- sx = 1, sy = 1
          have hxe : (x + 1) % 256 = x + 1 := Nat.mod_eq_of_lt (by omega)
          have hye : (y + 1) % 256 = y + 1 := Nat.mod_eq_of_lt (by omega)
          obtain ⟨df, pts, heq, hm⟩ := ih (u - 1) (v - 1) (DrawPixelColor d x y color)
            (x + 1) (y + 1) (err - dy + dx)
            (by omega) (by omega) (by omega) (by omega)
            (by rw [herr]; push_cast [Nat.cast_sub (by omega : 1 ≤ u), Nat.cast_sub (by omega : 1 ≤ v)]; ring)
            (by omega)
          refine ⟨df, (x, y) :: pts, ?_, List.mem_cons_of_mem _ hm⟩
          rw [bresLoop, if_neg hend]
          simp only [if_pos c1, if_pos c2, if_pos (rfl : (1:Int) = 1), if_true, hxe, hye]
          rw [heq]
        · -- sx = 1, sy = -1
          have hxe : (x + 1) % 256 = x + 1 := Nat.mod_eq_of_lt (by omega)
          have hye : (y + 255) % 256 = y - 1 := by omega
          obtain ⟨df, pts, heq, hm⟩ := ih (u - 1) (v - 1) (DrawPixelColor d x y color)
            (x + 1) (y - 1) (err - dy + dx)
            (by omega) (by omega) (by omega) (by omega)
            (by rw [herr]; push_cast [Nat.cast_sub (by omega : 1 ≤ u), Nat.cast_sub (by omega : 1 ≤ v)]; ring)
            (by omega)
          refine ⟨df, (x, y) :: pts, ?_, List.mem_cons_of_mem _ hm⟩
          rw [bresLoop, if_neg hend]
          simp only [if_pos c1, if_pos c2, if_pos (rfl : (1:Int) = 1),
            if_neg (by decide : ¬((-1:Int) = 1)), if_true, hxe, hye]
          rw [heq]
        · -- sx = -1, sy = 1
          have hxe : (x + 255) % 256 = x - 1 := by omega
          have hye : (y + 1) % 256 = y + 1 := Nat.mod_eq_of_lt (by omega)
          obtain ⟨df, pts, heq, hm⟩ := ih (u - 1) (v - 1) (DrawPixelColor d x y color)
            (x - 1) (y + 1) (err - dy + dx)
            (by omega) (by omega) (by omega) (by omega)
            (by rw [herr]; push_cast [Nat.cast_sub (by omega : 1 ≤ u), Nat.cast_sub (by omega : 1 ≤ v)]; ring)
            (by omega)
          refine ⟨df, (x, y) :: pts, ?_, List.mem_cons_of_mem _ hm⟩
          rw [bresLoop, if_neg hend]
          simp only [if_pos c1, if_pos c2, if_pos (rfl : (1:Int) = 1),
            if_neg (by decide : ¬((-1:Int) = 1)), if_true, hxe, hye]
          rw [heq]
        · -- sx = -1, sy = -1
          have hxe : (x + 255) % 256 = x - 1 := by omega
          have hye : (y + 255) % 256 = y - 1 := by omega
          obtain ⟨df, pts, heq, hm⟩ := ih (u - 1) (v - 1) (DrawPixelColor d x y color)
            (x - 1) (y - 1) (err - dy + dx)
            (by omega) (by omega) (by omega) (by omega)
            (by rw [herr]; push_cast [Nat.cast_sub (by omega : 1 ≤ u), Nat.cast_sub (by omega : 1 ≤ v)]; ring)
            (by omega)
          refine ⟨df, (x, y) :: pts, ?_, List.mem_cons_of_mem _ hm⟩
          rw [bresLoop, if_neg hend]
          simp only [if_neg (by decide : ¬((-1:Int) = 1)), if_pos c1, if_pos c2, if_true, hxe, hye]
          rw [heq]
      · -- only x steps
        have hu0 : u ≠ 0 := by
          intro h0
          by_cases h0v : v = 0
          · exact hne ⟨h0, h0v⟩
          · exact hO1 h0 h0v c1
        rcases hsx with rfl | rfl
        · have hxe : (x + 1) % 256 = x + 1 := Nat.mod_eq_of_lt (by omega)
          obtain ⟨df, pts, heq, hm⟩ := ih (u - 1) v (DrawPixelColor d x y color)
            (x + 1) y (err - dy)
            (by omega) (by omega) (by omega) (by omega)
            (by rw [herr]; push_cast [Nat.cast_sub (by omega : 1 ≤ u)]; ring)
            (by omega)
          refine ⟨df, (x, y) :: pts, ?_, List.mem_cons_of_mem _ hm⟩
          rw [bresLoop, if_neg hend]
          simp only [if_pos c1, if_neg c2, if_pos (rfl : (1:Int) = 1), if_true, hxe]
          rw [heq]
        · have hxe : (x + 255) % 256 = x - 1 := by omega
          obtain ⟨df, pts, heq, hm⟩ := ih (u - 1) v (DrawPixelColor d x y color)
            (x - 1) y (err - dy)
            (by omega) (by omega) (by omega) (by omega)
            (by rw [herr]; push_cast [Nat.cast_sub (by omega : 1 ≤ u)]; ring)
            (by omega)
          refine ⟨df, (x, y) :: pts, ?_, List.mem_cons_of_mem _ hm⟩
          rw [bresLoop, if_neg hend]
          simp only [if_pos c1, if_neg c2, if_neg (by decide : ¬((-1:Int) = 1)), if_true, hxe]
          rw [heq]
      · -- only y steps
        have hv0 : v ≠ 0 := by
          intro h0
          by_cases h0u : u = 0
          · exact hne ⟨h0u, h0⟩
          · exact hO2 h0 h0u c2
        rcases hsy with rfl | rfl
        · have hye : (y + 1) % 256 = y + 1 := Nat.mod_eq_of_lt (by omega)
          obtain ⟨df, pts, heq, hm⟩ := ih u (v - 1) (DrawPixelColor d x y color)
            x (y + 1) (err + dx)
            (by omega) (by omega) (by omega) (by omega)
            (by rw [herr]; push_cast [Nat.cast_sub (by omega : 1 ≤ v)]; ring)
            (by omega)
          refine ⟨df, (x, y) :: pts, ?_, List.mem_cons_of_mem _ hm⟩
          rw [bresLoop, if_neg hend]
          simp only [if_neg c1, if_pos c2, if_pos (rfl : (1:Int) = 1), if_true, hye]
          rw [heq]
        · have hye : (y + 255) % 256 = y - 1 := by omega
          obtain ⟨df, pts, heq, hm⟩ := ih u (v - 1) (DrawPixelColor d x y color)
            x (y - 1) (err + dx)
            (by omega) (by omega) (by omega) (by omega)
            (by rw [herr]; push_cast [Nat.cast_sub (by omega : 1 ≤ v)]; ring)
            (by omega)
          refine ⟨df, (x, y) :: pts, ?_, List.mem_cons_of_mem _ hm⟩
          rw [bresLoop, if_neg hend]
          simp only [if_neg c1, if_pos c2, if_neg (by decide : ¬((-1:Int) = 1)), if_true, hye]
          rw [heq]
      · -- neither test fires: impossible unless already at the endpoint
        exfalso
        have h1 : dx ≤ 2 * err := by omega
        have h2 : 2 * err ≤ -dy := by omega
        have : dx = 0 ∧ dy = 0 := by omega
        exact hne ⟨by omega, by omega⟩



lemma bresLoop_match_some {x y : Nat} {R : Option (Driver × List (Nat × Nat))}
    {df : Driver} {pts : List (Nat × Nat)}
    (h : (match R with
          | none => none
          | some (df, pts) => some (df, (x, y) :: pts)) = some (df, pts)) :
    ∃ df' pts', R = some (df', pts') ∧ df = df' ∧ pts = (x, y) :: pts' := by
  match R, h with
  | none, h => exact absurd h (by simp)
  | some (a, b), h =>
    simp only [Option.some.injEq, Prod.mk.injEq] at h
    exact ⟨a, b, rfl, h.1.symm, h.2.symm⟩

lemma bresLoop_length (color : Nat) (dx dy sx sy : Int) (x2 y2 : Nat) :
    ∀ (fuel : Nat) (d : Driver) (x y : Nat) (err : Int) (df : Driver) (pts : List (Nat × Nat)),
      bresLoop color dx dy sx sy x2 y2 fuel d x y err = some (df, pts) →
      pts.length ≤ fuel := by
  intro fuel
  induction fuel with
  | zero => intro d x y err df pts h; simp [bresLoop] at h
  | succ n ih =>
    intro d x y err df pts h
    rw [bresLoop] at h
    split at h
    · simp only [Option.some.injEq, Prod.mk.injEq] at h
      rw [← h.2]
      simp
    · obtain ⟨df', pts', hrec, -, hpts⟩ := bresLoop_match_some h
      have := ih _ _ _ _ _ _ hrec
      rw [hpts]
      simp only [List.length_cons]
      omega

lemma bresLoop_first (color : Nat) (dx dy sx sy : Int) (x2 y2 : Nat)
    (fuel : Nat) (d : Driver) (x y : Nat) (err : Int) (df : Driver) (pts : List (Nat × Nat))
    (h : bresLoop color dx dy sx sy x2 y2 fuel d x y err = some (df, pts)) :
    (x, y) ∈ pts := by
  cases fuel with
  | zero => simp [bresLoop] at h
  | succ n =>
    rw [bresLoop] at h
    split at h
    · simp only [Option.some.injEq, Prod.mk.injEq] at h
      rw [← h.2]
      simp
    · obtain ⟨df', pts', -, -, hpts⟩ := bresLoop_match_some h
      rw [hpts]
      simp

lemma drawLine_some (d : Driver) (x1 y1 x2 y2 color : Nat) :
    ∃ df pts, DrawLineColor d x1 y1 x2 y2 color = some (df, pts) ∧
      (x1 % 256, y1 % 256) ∈ pts ∧ (x2 % 256, y2 % 256) ∈ pts ∧
      pts.length ≤ (|((x2 % 256 : Nat) : Int) - ((x1 % 256 : Nat) : Int)|).toNat
        + (|((y2 % 256 : Nat) : Int) - ((y1 % 256 : Nat) : Int)|).toNat + 1 := by
  have ha1 : x1 % 256 < 256 := Nat.mod_lt _ (by omega)
  have hb1 : y1 % 256 < 256 := Nat.mod_lt _ (by omega)
  have ha2 : x2 % 256 < 256 := Nat.mod_lt _ (by omega)
  have hb2 : y2 % 256 < 256 := Nat.mod_lt _ (by omega)
  unfold DrawLineColor
  set a1 := x1 % 256 with ha1d
  set b1 := y1 % 256 with hb1d
  set a2 := x2 % 256 with ha2d
  set b2 := y2 % 256 with hb2d
  set dx : Int := |(a2 : Int) - (a1 : Int)| with hdxd
  set dy : Int := |(b2 : Int) - (b1 : Int)| with hdyd
  set sx : Int := if a1 < a2 then 1 else -1 with hsxd
  set sy : Int := if b1 < b2 then 1 else -1 with hsyd
  have hdxa : dx = |(a2 : Int) - (a1 : Int)| := hdxd
  have habs_x : (sx = 1 ∧ dx = (a2 : Int) - a1 ∧ (a1:Int) ≤ a2) ∨
      (sx = -1 ∧ dx = (a1 : Int) - a2 ∧ (a2:Int) ≤ a1) := by
    by_cases h : a1 < a2
    · left
      refine ⟨by rw [hsxd, if_pos h], ?_, by omega⟩
      rw [hdxd, abs_of_nonneg (by omega : (0:Int) ≤ (a2 : Int) - (a1 : Int))]
    · right
      refine ⟨by rw [hsxd, if_neg h], ?_, by omega⟩
      rw [hdxd, abs_sub_comm, abs_of_nonneg (by omega : (0:Int) ≤ (a1 : Int) - (a2 : Int))]
  have habs_y : (sy = 1 ∧ dy = (b2 : Int) - b1 ∧ (b1:Int) ≤ b2) ∨
      (sy = -1 ∧ dy = (b1 : Int) - b2 ∧ (b2:Int) ≤ b1) := by
    by_cases h : b1 < b2
    · left
      refine ⟨by rw [hsyd, if_pos h], ?_, by omega⟩
      rw [hdyd, abs_of_nonneg (by omega : (0:Int) ≤ (b2 : Int) - (b1 : Int))]
    · right
      refine ⟨by rw [hsyd, if_neg h], ?_, by omega⟩
      rw [hdyd, abs_sub_comm, abs_of_nonneg (by omega : (0:Int) ≤ (b1 : Int) - (b2 : Int))]
  have hdx0 : 0 ≤ dx := abs_nonneg _
  have hdy0 : 0 ≤ dy := abs_nonneg _
  have hcastx : ((dx.toNat : Int)) = dx := Int.toNat_of_nonneg hdx0
  have hcasty : ((dy.toNat : Int)) = dy := Int.toNat_of_nonneg hdy0
  obtain ⟨df, pts, heq, hm2⟩ := bresLoop_total color dx dy sx sy a2 b2
    (by rcases habs_x with ⟨h, -, -⟩ | ⟨h, -, -⟩ <;> [left; right] <;> exact h)
    (by rcases habs_y with ⟨h, -, -⟩ | ⟨h, -, -⟩ <;> [left; right] <;> exact h)
    hdx0 hdy0 ha2 hb2
    (by rcases habs_x with ⟨h1, h2, h3⟩ | ⟨h1, h2, h3⟩ <;> rw [h1, h2] <;> omega)
    (by rcases habs_x with ⟨h1, h2, h3⟩ | ⟨h1, h2, h3⟩ <;> rw [h1, h2] <;> omega)
    (by rcases habs_y with ⟨h1, h2, h3⟩ | ⟨h1, h2, h3⟩ <;> rw [h1, h2] <;> omega)
    (by rcases habs_y with ⟨h1, h2, h3⟩ | ⟨h1, h2, h3⟩ <;> rw [h1, h2] <;> omega)
    (dx.toNat + dy.toNat + 1) dx.toNat dy.toNat d a1 b1 (dx - dy)
    (by omega) (by omega)
    (by rcases habs_x with ⟨h1, h2, h3⟩ | ⟨h1, h2, h3⟩ <;> rw [h1, h2] <;> omega)
    (by rcases habs_y with ⟨h1, h2, h3⟩ | ⟨h1, h2, h3⟩ <;> rw [h1, h2] <;> omega)
    (by rw [hcastx, hcasty]; ring)
    (by omega)
  exact ⟨df, pts, heq, bresLoop_first color dx dy sx sy a2 b2 _ _ _ _ _ _ _ heq, hm2,
    bresLoop_length color dx dy sx sy a2 b2 _ _ _ _ _ _ _ heq⟩


lemma map_snd_match (R S : Option (Driver × List (Nat × Nat))) (x y : Nat)
    (h : R.map Prod.snd = S.map Prod.snd) :
    (Option.map Prod.snd (match R with
      | none => none
      | some (df, pts) => some (df, (x, y) :: pts)))
      = Option.map Prod.snd (match S with
      | none => none
      | some (df, pts) => some (df, (x, y) :: pts)) := by
  match R, S, h with
  | none, none, _ => rfl
  | some (a, b), some (a2, b2), h =>
    simp only [Option.map_some', Prod.snd, Option.some.injEq] at h ⊢
    rw [h]
  | none, some p, h => exact absurd h (by simp)
  | some p, none, h => exact absurd h (by simp)

lemma bresLoop_pts_congr (c c2 : Nat) (dx dy sx sy : Int) (x2 y2 : Nat) :
    ∀ (fuel : Nat) (d d2 : Driver) (x y : Nat) (err : Int),
      (bresLoop c dx dy sx sy x2 y2 fuel d x y err).map Prod.snd
        = (bresLoop c2 dx dy sx sy x2 y2 fuel d2 x y err).map Prod.snd := by
  intro fuel
  induction fuel with
  | zero => intro d d2 x y err; rfl
  | succ n ih =>
    intro d d2 x y err
    rw [bresLoop, bresLoop]
    by_cases hend : x = x2 ∧ y = y2
    · rw [if_pos hend, if_pos hend]
      rfl
    · rw [if_neg hend, if_neg hend]
      exact map_snd_match _ _ x y (ih _ _ _ _ _)

lemma DrawLineColor_pts_congr (d d2 : Driver) (c c2 x1 y1 x2 y2 : Nat) :
    (DrawLineColor d x1 y1 x2 y2 c).map Prod.snd
      = (DrawLineColor d2 x1 y1 x2 y2 c2).map Prod.snd := by
  unfold DrawLineColor
  exact bresLoop_pts_congr c c2 _ _ _ _ _ _ _ _ _ _ _ _

/-- Claim C10: `DrawLineColor` terminates for every input: the Bresenham loop
reaches the endpoint within its fuel `dx + dy + 1`, so the embedding always
returns `some`, and the number of plotted pixels is at most `dx + dy + 1`
(`dx`, `dy` the absolute coordinate differences of the, mod-256 reduced,
endpoints). -/
theorem drawLine_total (d : Driver) (x1 y1 x2 y2 color : Nat) :
    ∃ df pts, DrawLineColor d x1 y1 x2 y2 color = some (df, pts) ∧
      pts.length ≤ (|((x2 % 256 : Nat) : Int) - ((x1 % 256 : Nat) : Int)|).toNat
        + (|((y2 % 256 : Nat) : Int) - ((y1 % 256 : Nat) : Int)|).toNat + 1 := by
  obtain ⟨df, pts, heq, -, -, hlen⟩ := drawLine_some d x1 y1 x2 y2 color
  exact ⟨df, pts, heq, hlen⟩

/-- Claim C1, counterexample: `drawLine(0,0,4,2,c)` and `drawLine(4,2,0,0,c)`
do NOT paint identical pixel sets.  The forward call plots
`(0,0),(1,0),(2,1),(3,1),(4,2)`; the reverse call plots
`(4,2),(3,2),(2,1),(1,1),(0,0)`.  Pixel `(1,0)` is painted only by the
forward call, and on a fresh 8×8 framebuffer the two calls leave different
buffer contents. -/
theorem drawLine_symmetry_counterexample :
    (1, 0) ∈ ptsOf (DrawLineColor testDriver8 0 0 4 2 1) ∧
    (1, 0) ∉ ptsOf (DrawLineColor testDriver8 4 2 0 0 1) ∧
    (DrawLineColor testDriver8 0 0 4 2 1).map (fun r => r.1.buffer_)
      ≠ (DrawLineColor testDriver8 4 2 0 0 1).map (fun r => r.1.buffer_) := by
  decide

/-- Claim C1, amended: the two calls `drawLine(x1,y1,x2,y2,c)` and
`drawLine(x2,y2,x1,y1,c)` need not paint identical pixel sets (see the
counterexample), but each completes and each plots a pixel set containing
both endpoints `(x1,y1)` and `(x2,y2)`. -/
theorem drawLine_endpoint_sets (d d2 : Driver) (x1 y1 x2 y2 color : Nat)
    (h1 : x1 < 256) (h2 : y1 < 256) (h3 : x2 < 256) (h4 : y2 < 256) :
    ∃ df pts ef qts,
      DrawLineColor d x1 y1 x2 y2 color = some (df, pts) ∧
      DrawLineColor d2 x2 y2 x1 y1 color = some (ef, qts) ∧
      (x1, y1) ∈ pts ∧ (x2, y2) ∈ pts ∧ (x1, y1) ∈ qts ∧ (x2, y2) ∈ qts := by
  obtain ⟨df, pts, heq, hm1, hm2, -⟩ := drawLine_some d x1 y1 x2 y2 color
  obtain ⟨ef, qts, heq2, hm3, hm4, -⟩ := drawLine_some d2 x2 y2 x1 y1 color
  rw [Nat.mod_eq_of_lt h1, Nat.mod_eq_of_lt h2] at hm1 hm4
  rw [Nat.mod_eq_of_lt h3, Nat.mod_eq_of_lt h4] at hm2 hm3
  exact ⟨df, pts, ef, qts, heq, heq2, hm1, hm2, hm4, hm3⟩

/-- Witness for the amended C1 at endpoints `(0,0)`–`(4,2)` on the 8×8 test
driver. -/
theorem drawLine_endpoint_sets_witness :
    (0 < 256 ∧ 4 < 256 ∧ 2 < 256) ∧
    (0, 0) ∈ ptsOf (DrawLineColor testDriver8 0 0 4 2 1) ∧
    (4, 2) ∈ ptsOf (DrawLineColor testDriver8 0 0 4 2 1) ∧
    (0, 0) ∈ ptsOf (DrawLineColor testDriver8 4 2 0 0 1) ∧
    (4, 2) ∈ ptsOf (DrawLineColor testDriver8 4 2 0 0 1) := by
  obtain ⟨df, pts, ef, qts, e1, e2, m1, m2, m3, m4⟩ :=
    drawLine_endpoint_sets testDriver8 testDriver8 0 0 4 2 1
      (by decide) (by decide) (by decide) (by decide)
  refine ⟨by decide, ?_, ?_, ?_, ?_⟩ <;> rw [ptsOf.eq_def]
  · rw [e1]; exact m1
  · rw [e1]; exact m2
  · rw [e2]; exact m3
  · rw [e2]; exact m4

/-- Claim C2: for every color and any starting framebuffer,
`drawLine(0,0,4,2,color)` plots exactly the pixels
`(0,0),(1,0),(2,1),(3,1),(4,2)`, in this order, and no others (the reference
Bresenham trace). -/
theorem drawLine_golden_trace (d : Driver) (color : Nat) :
    (DrawLineColor d 0 0 4 2 color).map Prod.snd
      = some [(0, 0), (1, 0), (2, 1), (3, 1), (4, 2)] := by
  rw [DrawLineColor_pts_congr d testDriver8 color 0 0 0 4 2]
  decide

/-! ### C6, C7: `Update` and `FillColor` -/

/-- The byte sequence `hi, lo, hi, lo, ...` (`n` pairs) that `FillColor`
leaves in the framebuffer. -/
def patternBytes (hi lo : Nat) : Nat → List Nat
  | 0 => []
  | n + 1 => hi :: lo :: patternBytes hi lo n

lemma patternBytes_length (hi lo : Nat) : ∀ n, (patternBytes hi lo n).length = 2 * n := by
  intro n
  induction n with
  | zero => rfl
  | succ n ih => simp only [patternBytes, List.length_cons, ih]; omega

lemma patternBytes_getElem? (hi lo : Nat) : ∀ n j, (patternBytes hi lo n)[j]? =
    if j < 2 * n then some (if j % 2 = 0 then hi else lo) else none := by
  intro n
  induction n with
  | zero => intro j; simp [patternBytes]
  | succ n ih =>
    intro j
    match j with
    | 0 => simp [patternBytes]
    | 1 =>
      simp only [patternBytes, List.getElem?_cons_succ, List.getElem?_cons_zero]
      rw [if_pos (show 1 < 2 * (n + 1) by omega)]
      rfl
    | j + 2 =>
      simp only [patternBytes, List.getElem?_cons_succ]
      rw [ih j]
      by_cases h : j < 2 * n
      · rw [if_pos h, if_pos (show j + 2 < 2 * (n + 1) by omega)]
        have hm : (j + 2) % 2 = j % 2 := by omega
        rw [hm]
      · rw [if_neg h, if_neg (show ¬(j + 2 < 2 * (n + 1)) by omega)]

lemma set_pair : ∀ (i : Nat) (b : List Nat) (hi lo : Nat), i + 1 < b.length →
    (b.set i hi).set (i + 1) lo = b.take i ++ hi :: lo :: b.drop (i + 2) := by
  intro i
  induction i with
  | zero =>
    intro b hi lo h
    match b with
    | [] => simp at h
    | [x] => simp at h
    | x :: y :: rest => rfl
  | succ i ih =>
    intro b hi lo h
    match b with
    | [] => simp at h
    | x :: rest =>
      simp only [List.set_cons_succ, List.take_succ_cons, List.drop_succ_cons]
      rw [ih rest hi lo (by simpa using h)]
      simp

lemma fillLoop_eq (hi lo : Nat) : ∀ (n i : Nat) (b : List Nat), i + 2 * n ≤ b.length →
    fillLoop hi lo n i b = b.take i ++ patternBytes hi lo n ++ b.drop (i + 2 * n) := by
  intro n
  induction n with
  | zero =>
    intro i b h
    simp [fillLoop, patternBytes, List.take_append_drop]
  | succ n ih =>
    intro i b h
    rw [fillLoop, ih (i + 2) _ (by simp only [List.length_set]; omega)]
    rw [set_pair i b hi lo (by omega)]
    rw [List.take_append_eq_append_take, List.drop_append_eq_append_drop]
    have hti : (b.take i).length = i := List.length_take_of_le (by omega)
    rw [hti]
    have h1 : i + 2 - i = 2 := by omega
    have h2 : List.take (i + 2) (b.take i) = b.take i :=
      List.take_of_length_le (by rw [hti]; omega)
    have h3 : i + 2 + 2 * n - i = 2 * n + 1 + 1 := by omega
    have h4 : List.drop (i + 2 + 2 * n) (b.take i) = [] :=
      List.drop_eq_nil_of_le (by rw [hti]; omega)
    rw [h1, h2, h3, h4]
    simp only [List.take_succ_cons, List.take_zero, List.drop_succ_cons, patternBytes,
      List.nil_append, List.drop_drop]
    have h5 : i + 2 + 2 * n = i + 2 * (n + 1) := by omega
    rw [h5]
    simp

lemma FillColor_buffer (d : Driver) (color : Nat)
    (hlen : d.buffer_.length = d.width * d.height * 2) :
    FillColor d color = { d with
      buffer_ := patternBytes (color / 256 % 256) (color % 256) (d.width * d.height) } := by
  simp only [FillColor]
  rw [fillLoop_eq _ _ _ _ _ (by omega)]
  have h1 : 0 + 2 * (d.width * d.height) = d.buffer_.length := by omega
  rw [h1, List.drop_length]
  simp

/-- Claim C6: `Update` emits, in order: the column-address-set command `0x2A`
with exactly the four parameter bytes `0, 0, 0, width-1`; the row-address-set
command `0x2B` with `0, 0, 0, height-1`; the memory-write command `0x2C`;
then the entire framebuffer (whose length is `width*height*2` bytes, and
which is exactly the buffer contents at the time of the call) as one data
burst — and nothing else. -/
theorem update_wire_spec (d : Driver)
    (hw1 : 1 ≤ d.width) (hw : d.width ≤ 256) (hh1 : 1 ≤ d.height) (hh : d.height ≤ 256)
    (hlen : d.buffer_.length = d.width * d.height * 2) :
    Update d = [Event.cmd 0x2A, Event.data [0x00, 0x00, 0x00, d.width - 1],
                Event.cmd 0x2B, Event.data [0x00, 0x00, 0x00, d.height - 1],
                Event.cmd 0x2C, Event.data d.buffer_] ∧
    d.buffer_.length = d.width * d.height * 2 := by
  refine ⟨?_, hlen⟩
  unfold Update
  have h1 : (d.width + 255) % 256 = d.width - 1 := by omega
  have h2 : (d.height + 255) % 256 = d.height - 1 := by omega
  rw [h1, h2]

/-- Witness for C6 on the 3×2 test driver. -/
theorem update_wire_spec_witness :
    (1 ≤ testDriver.width ∧ testDriver.width ≤ 256 ∧ 1 ≤ testDriver.height ∧
      testDriver.height ≤ 256 ∧ testDriver.buffer_.length = testDriver.width * testDriver.height * 2) ∧
    Update testDriver = [Event.cmd 0x2A, Event.data [0x00, 0x00, 0x00, testDriver.width - 1],
      Event.cmd 0x2B, Event.data [0x00, 0x00, 0x00, testDriver.height - 1],
      Event.cmd 0x2C, Event.data testDriver.buffer_] :=
  ⟨by decide,
   (update_wire_spec testDriver (by decide) (by decide) (by decide) (by decide) (by decide)).1⟩

/-- Claim C7: `fill(color)` followed by `update()` is idempotent: filling an
already-filled framebuffer changes nothing (the driver state is identical),
and consequently the second `update()` emits exactly the same wire bytes as
the first. -/
theorem fill_update_idempotent (d : Driver) (color : Nat)
    (hlen : d.buffer_.length = d.width * d.height * 2) :
    FillColor (FillColor d color) color = FillColor d color ∧
    Update (FillColor (FillColor d color) color) = Update (FillColor d color) := by
  have h1 := FillColor_buffer d color hlen
  have h2 : FillColor (FillColor d color) color = FillColor d color := by
    rw [h1]
    rw [FillColor_buffer _ color (by
      simp only [patternBytes_length]
      ring)]
  exact ⟨h2, by rw [h2]⟩

/-- Witness for C7 on the 3×2 test driver with color `0xABCD`. -/
theorem fill_update_idempotent_witness :
    (testDriver.buffer_.length = testDriver.width * testDriver.height * 2) ∧
    FillColor (FillColor testDriver 0xABCD) 0xABCD = FillColor testDriver 0xABCD ∧
    Update (FillColor (FillColor testDriver 0xABCD) 0xABCD) = Update (FillColor testDriver 0xABCD) :=
  ⟨by decide, fill_update_idempotent testDriver 0xABCD (by decide)⟩

/-! ### C5: `DrawRectColor` with reversed coordinates -/

/-- Byte index `i` addresses one of the two bytes of an in-bounds pixel. -/
def InBOffset (d : Driver) (i : Nat) : Prop :=
  ∃ x y, x < d.width ∧ y < d.height ∧
    (i = (y * d.width + x) * 2 ∨ i = (y * d.width + x) * 2 + 1)

/-- `d1` differs from `d0` only in framebuffer bytes of in-bounds pixels
(and has the same dimensions and buffer length). -/
def Safe (d0 d1 : Driver) : Prop :=
  d1.width = d0.width ∧ d1.height = d0.height ∧
  d1.buffer_.length = d0.buffer_.length ∧
  ∀ i, d1.buffer_[i]? ≠ d0.buffer_[i]? → InBOffset d0 i

lemma Safe.refl (d : Driver) : Safe d d :=
  ⟨rfl, rfl, rfl, fun _ h => absurd rfl h⟩

lemma Safe.trans {a b c : Driver} (h1 : Safe a b) (h2 : Safe b c) : Safe a c := by
  obtain ⟨w1, g1, l1, p1⟩ := h1
  obtain ⟨w2, g2, l2, p2⟩ := h2
  refine ⟨w2.trans w1, g2.trans g1, l2.trans l1, fun i hne => ?_⟩
  by_cases hb : c.buffer_[i]? = b.buffer_[i]?
  · exact p1 i (by rw [← hb]; exact hne)
  · obtain ⟨x, y, hx, hy, hi⟩ := p2 i hb
    rw [w1] at hx hi
    rw [g1] at hy
    exact ⟨x, y, hx, hy, hi⟩

lemma drawPixel_safe (d : Driver) (x y c : Nat) : Safe d (DrawPixelColor d x y c) := by
  refine ⟨DrawPixelColor_width d x y c, DrawPixelColor_height d x y c,
    DrawPixelColor_length d x y c, fun i hne => ?_⟩
  by_cases hoob : d.width ≤ x % 256 ∨ d.height ≤ y % 256
  · exfalso
    apply hne
    have : DrawPixelColor d x y c = d := by
      simp only [DrawPixelColor]
      rw [if_pos hoob]
    rw [this]
  · push_neg at hoob
    by_cases h1 : i = ((y % 256) * d.width + x % 256) * 2
    · exact ⟨x % 256, y % 256, hoob.1, hoob.2, Or.inl h1⟩
    · by_cases h2 : i = ((y % 256) * d.width + x % 256) * 2 + 1
      · exact ⟨x % 256, y % 256, hoob.1, hoob.2, Or.inr h2⟩
      · exact absurd (DrawPixelColor_getElem?_other d x y c i h1 h2) hne

lemma hlineLoop_safe (xw y c : Nat) : ∀ (fuel : Nat) (d : Driver) (i : Nat) (d2 : Driver),
    hlineLoop xw y c fuel d i = some d2 → Safe d d2 := by
  intro fuel
  induction fuel with
  | zero => intro d i d2 h; simp [hlineLoop] at h
  | succ n ih =>
    intro d i d2 h
    rw [hlineLoop] at h
    split at h
    · exact Safe.trans (drawPixel_safe d i y c) (ih _ _ _ h)
    · simp only [Option.some.injEq] at h
      rw [← h]
      exact Safe.refl d

lemma vlineLoop_safe (yh x c : Nat) : ∀ (fuel : Nat) (d : Driver) (j : Nat) (d2 : Driver),
    vlineLoop yh x c fuel d j = some d2 → Safe d d2 := by
  intro fuel
  induction fuel with
  | zero => intro d j d2 h; simp [vlineLoop] at h
  | succ n ih =>
    intro d j d2 h
    rw [vlineLoop] at h
    split at h
    · exact Safe.trans (drawPixel_safe d x j c) (ih _ _ _ h)
    · simp only [Option.some.injEq] at h
      rw [← h]
      exact Safe.refl d

lemma hlineLoop_isSome (xw y c : Nat) : ∀ (fuel : Nat) (d : Driver) (i : Nat),
    d.width ≤ 255 → d.width ≤ fuel + i → (hlineLoop xw y c (fuel + 1) d i).isSome := by
  intro fuel
  induction fuel with
  | zero =>
    intro d i hw hfi
    rw [hlineLoop]
    split
    · rename_i hcond
      omega
    · simp
  | succ n ih =>
    intro d i hw hfi
    rw [hlineLoop]
    split
    · rename_i hcond
      have hmod : (i + 1) % 256 = i + 1 := Nat.mod_eq_of_lt (by omega)
      rw [hmod]
      exact ih (DrawPixelColor d i y c) (i + 1)
        (by rw [DrawPixelColor_width]; exact hw)
        (by rw [DrawPixelColor_width]; omega)
    · simp

lemma vlineLoop_isSome (yh x c : Nat) : ∀ (fuel : Nat) (d : Driver) (j : Nat),
    d.height ≤ 255 → d.height ≤ fuel + j → (vlineLoop yh x c (fuel + 1) d j).isSome := by
  intro fuel
  induction fuel with
  | zero =>
    intro d j hh hfj
    rw [vlineLoop]
    split
    · rename_i hcond
      omega
    · simp
  | succ n ih =>
    intro d j hh hfj
    rw [vlineLoop]
    split
    · rename_i hcond
      have hmod : (j + 1) % 256 = j + 1 := Nat.mod_eq_of_lt (by omega)
      rw [hmod]
      exact ih (DrawPixelColor d x j c) (j + 1)
        (by rw [DrawPixelColor_height]; exact hh)
        (by rw [DrawPixelColor_height]; omega)
    · simp

lemma DrawHLineColor_spec (d : Driver) (x y w c : Nat) (hw : d.width ≤ 255) :
    ∃ d2, DrawHLineColor d x y w c = some d2 ∧ Safe d d2 := by
  have h1 := hlineLoop_isSome (x % 256 + w % 256) (y % 256) c 256 d (x % 256) hw (by omega)
  obtain ⟨d2, hd2⟩ := Option.isSome_iff_exists.mp h1
  exact ⟨d2, hd2, hlineLoop_safe _ _ _ _ _ _ _ hd2⟩

lemma DrawVLineColor_spec (d : Driver) (x y h c : Nat) (hh : d.height ≤ 255) :
    ∃ d2, DrawVLineColor d x y h c = some d2 ∧ Safe d d2 := by
  have h1 := vlineLoop_isSome (y % 256 + h % 256) (x % 256) c 256 d (y % 256) hh (by omega)
  obtain ⟨d2, hd2⟩ := Option.isSome_iff_exists.mp h1
  exact ⟨d2, hd2, vlineLoop_safe _ _ _ _ _ _ _ hd2⟩

/-- Claim C5: for reversed coordinates (`x1 > x2` or `y1 > y2` — in fact for
every input), `DrawRectColor` completes without fault, and every framebuffer
byte it changes belongs to a pixel inside `[0,width) × [0,height)`; the
buffer length and the dimensions are untouched.  `width, height ≤ 255`
reflects the provided driver instantiations (80–160); at exactly 256 the
underlying C loop can fail to terminate. -/
theorem drawRect_reversed_safe (d : Driver) (x1 y1 x2 y2 color : Nat)
    (hw : d.width ≤ 255) (hh : d.height ≤ 255)
    (_hrev : x2 < x1 ∨ y2 < y1) :
    ∃ d2, DrawRectColor d x1 y1 x2 y2 color = some d2 ∧
      d2.width = d.width ∧ d2.height = d.height ∧
      d2.buffer_.length = d.buffer_.length ∧
      ∀ i, d2.buffer_[i]? ≠ d.buffer_[i]? →
        ∃ x y, x < d.width ∧ y < d.height ∧
          (i = (y * d.width + x) * 2 ∨ i = (y * d.width + x) * 2 + 1) := by
  obtain ⟨e1, he1, hs1⟩ := DrawHLineColor_spec d (x1 % 256) (y1 % 256)
    ((x2 % 256 + 257 - x1 % 256) % 256) color hw
  obtain ⟨e2, he2, hs2⟩ := DrawHLineColor_spec e1 (x1 % 256) (y2 % 256)
    ((x2 % 256 + 257 - x1 % 256) % 256) color (by rw [hs1.1]; exact hw)
  obtain ⟨e3, he3, hs3⟩ := DrawVLineColor_spec e2 (x1 % 256) (y1 % 256)
    ((y2 % 256 + 257 - y1 % 256) % 256) color (by rw [hs2.2.1, hs1.2.1]; exact hh)
  obtain ⟨e4, he4, hs4⟩ := DrawVLineColor_spec e3 (x2 % 256) (y1 % 256)
    ((y2 % 256 + 257 - y1 % 256) % 256) color (by rw [hs3.2.1, hs2.2.1, hs1.2.1]; exact hh)
  have hsafe : Safe d e4 := ((hs1.trans hs2).trans hs3).trans hs4
  refine ⟨e4, ?_, hsafe.1, hsafe.2.1, hsafe.2.2.1, hsafe.2.2.2⟩
  simp only [DrawRectColor]
  rw [he1, Option.some_bind, he2, Option.some_bind, he3, Option.some_bind, he4]

/-- Witness for C5: reversed rectangle `(5,1)`–`(2,6)` on the 8×8 test
driver completes. -/
theorem drawRect_reversed_safe_witness :
    (testDriver8.width ≤ 255 ∧ testDriver8.height ≤ 255 ∧ ((2:Nat) < 5 ∨ (6:Nat) < 1)) ∧
    (DrawRectColor testDriver8 5 1 2 6 7).isSome := by
  obtain ⟨d2, he, -⟩ := drawRect_reversed_safe testDriver8 5 1 2 6 7
    (by decide) (by decide) (by decide)
  exact ⟨by decide, by rw [he]; rfl⟩

/-! ### C8: `Init` -/

lemma Fill_false_eq (d : Driver)
    (hlen : d.buffer_.length = d.width * d.height * 2) :
    Fill { d with foreground_color_ := COLOR_WHITE, background_color_ := COLOR_BLACK,
                  accent_color_ := COLOR_CYAN } false
      = { d with foreground_color_ := COLOR_WHITE, background_color_ := COLOR_BLACK,
                 accent_color_ := COLOR_CYAN,
                 buffer_ := patternBytes 0 0 (d.width * d.height) } := by
  rw [Fill]
  rw [FillColor_buffer _ _ (by exact hlen)]
  simp [COLOR_BLACK]

/-- Claim C8: `Init` performs the transport setup and then sends the panel
script exactly once in exactly the order: software reset (0x01), sleep-out
(0x11), three frame-rate-control writes (0xB1/0xB2/0xB3),
display-inversion-control (0xB4), five power-control writes (0xC0–0xC4),
VCOM-control (0xC5), inversion-off (0x20), memory-access-control (0x36),
pixel-format (0x3A), the two 16-byte gamma tables (0xE0/0xE1),
normal-display-mode-on (0x13), display-on (0x29); afterwards the framebuffer
equals the background color (`COLOR_BLACK`) at every pixel and the presenter
(`Update`, whose memory-write command 0x2C appears exactly once in the whole
trace) is invoked exactly once. -/
theorem init_spec (d : Driver)
    (hlen : d.buffer_.length = d.width * d.height * 2)
    (hw1 : 1 ≤ d.width) (hw : d.width ≤ 256) (hh1 : 1 ≤ d.height) (hh : d.height ≤ 256) :
    (Init d).2 =
      [Event.tinit,
       Event.cmd 0x01, Event.delay 150,
       Event.cmd 0x11, Event.delay 120,
       Event.cmd 0xB1, Event.data [0x01, 0x2C, 0x2D],
       Event.cmd 0xB2, Event.data [0x01, 0x2C, 0x2D],
       Event.cmd 0xB3, Event.data [0x01, 0x2C, 0x2D, 0x01, 0x2C, 0x2D],
       Event.cmd 0xB4, Event.data [0x07],
       Event.cmd 0xC0, Event.data [0xA2, 0x02, 0x84],
       Event.cmd 0xC1, Event.data [0xC5],
       Event.cmd 0xC2, Event.data [0x0A, 0x00],
       Event.cmd 0xC3, Event.data [0x8A, 0x2A],
       Event.cmd 0xC4, Event.data [0x8A, 0xEE],
       Event.cmd 0xC5, Event.data [0x0E],
       Event.cmd 0x20,
       Event.cmd 0x36, Event.data [0xC8],
       Event.cmd 0x3A, Event.data [0x05],
       Event.delay 10,
       Event.cmd 0xE0, Event.data [0x02, 0x1c, 0x07, 0x12, 0x37, 0x32, 0x29, 0x2d,
                                   0x29, 0x25, 0x2B, 0x39, 0x00, 0x01, 0x03, 0x10],
       Event.cmd 0xE1, Event.data [0x03, 0x1d, 0x07, 0x06, 0x2E, 0x2C, 0x29, 0x2D,
                                   0x2E, 0x2E, 0x37, 0x3F, 0x00, 0x00, 0x02, 0x10],
       Event.cmd 0x13, Event.delay 10,
       Event.cmd 0x29, Event.delay 100,
       Event.cmd 0x2A, Event.data [0x00, 0x00, 0x00, d.width - 1],
       Event.cmd 0x2B, Event.data [0x00, 0x00, 0x00, d.height - 1],
       Event.cmd 0x2C, Event.data (patternBytes 0 0 (d.width * d.height))] ∧
    ((Init d).2.countP (fun e => e == Event.cmd 0x2C)) = 1 ∧
    (∀ x y, x < d.width → y < d.height →
      readPixel (Init d).1 x y = some COLOR_BLACK) ∧
    (Init d).1.background_color_ = COLOR_BLACK := by
  have hW := Fill_false_eq d hlen
  have h1 : (d.width + 255) % 256 = d.width - 1 := by omega
  have h2 : (d.height + 255) % 256 = d.height - 1 := by omega
  have htrace : (Init d).2 =
      [Event.tinit,
       Event.cmd 0x01, Event.delay 150,
       Event.cmd 0x11, Event.delay 120,
       Event.cmd 0xB1, Event.data [0x01, 0x2C, 0x2D],
       Event.cmd 0xB2, Event.data [0x01, 0x2C, 0x2D],
       Event.cmd 0xB3, Event.data [0x01, 0x2C, 0x2D, 0x01, 0x2C, 0x2D],
       Event.cmd 0xB4, Event.data [0x07],
       Event.cmd 0xC0, Event.data [0xA2, 0x02, 0x84],
       Event.cmd 0xC1, Event.data [0xC5],
       Event.cmd 0xC2, Event.data [0x0A, 0x00],
       Event.cmd 0xC3, Event.data [0x8A, 0x2A],
       Event.cmd 0xC4, Event.data [0x8A, 0xEE],
       Event.cmd 0xC5, Event.data [0x0E],
       Event.cmd 0x20,
       Event.cmd 0x36, Event.data [0xC8],
       Event.cmd 0x3A, Event.data [0x05],
       Event.delay 10,
       Event.cmd 0xE0, Event.data [0x02, 0x1c, 0x07, 0x12, 0x37, 0x32, 0x29, 0x2d,
                                   0x29, 0x25, 0x2B, 0x39, 0x00, 0x01, 0x03, 0x10],
       Event.cmd 0xE1, Event.data [0x03, 0x1d, 0x07, 0x06, 0x2E, 0x2C, 0x29, 0x2D,
                                   0x2E, 0x2E, 0x37, 0x3F, 0x00, 0x00, 0x02, 0x10],
       Event.cmd 0x13, Event.delay 10,
       Event.cmd 0x29, Event.delay 100,
       Event.cmd 0x2A, Event.data [0x00, 0x00, 0x00, d.width - 1],
       Event.cmd 0x2B, Event.data [0x00, 0x00, 0x00, d.height - 1],
       Event.cmd 0x2C, Event.data (patternBytes 0 0 (d.width * d.height))] := by
    simp only [Init]
    rw [hW, Update]
    simp only [h1, h2]
    rfl
  have hI1 : (Init d).1 =
      { d with foreground_color_ := COLOR_WHITE, background_color_ := COLOR_BLACK,
               accent_color_ := COLOR_CYAN,
               buffer_ := patternBytes 0 0 (d.width * d.height) } := by
    simp only [Init]
    rw [hW]
  refine ⟨htrace, ?_, ?_, ?_⟩
  · rw [htrace]
    simp [List.countP_cons]
  · intro x y hx hy
    have hoff := offset_lt d.width d.height x y hx hy
    rw [hI1, readPixel]
    simp only
    rw [patternBytes_getElem?, patternBytes_getElem?]
    rw [if_pos (show (y * d.width + x) * 2 < 2 * (d.width * d.height) by omega)]
    rw [if_pos (show (y * d.width + x) * 2 + 1 < 2 * (d.width * d.height) by omega)]
    rw [if_pos (show ((y * d.width + x) * 2) % 2 = 0 by omega)]
    rw [if_neg (show ¬(((y * d.width + x) * 2 + 1) % 2 = 0) by omega)]
    rfl
  · rw [hI1]

/-- Witness for C8 on the 3×2 test driver: the emitted command bytes, the
single memory-write, and the cleared framebuffer at pixel `(2, 1)`. -/
theorem init_spec_witness :
    (testDriver.buffer_.length = testDriver.width * testDriver.height * 2 ∧
      1 ≤ testDriver.width ∧ testDriver.width ≤ 256 ∧
      1 ≤ testDriver.height ∧ testDriver.height ≤ 256) ∧
    ((Init testDriver).2.countP (fun e => e == Event.cmd 0x2C)) = 1 ∧
    readPixel (Init testDriver).1 2 1 = some COLOR_BLACK :=
  ⟨by decide,
   (init_spec testDriver (by decide) (by decide) (by decide) (by decide) (by decide)).2.1,
   (init_spec testDriver (by decide) (by decide) (by decide) (by decide) (by decide)).2.2.1
     2 1 (by decide) (by decide)⟩

end ST7735
